import Mathlib

/-!
Shallow embedding of `dash_bio/component_factory/_variant.py` (the VariantMap
plot builder).  The table-shaping pipeline of `_VariantMap.__init__` and the
helper `discrete_colorscale` are translated into executable Lean definitions:

* pandas DataFrames become `Table` (named columns, labelled rows whose cells
  are numeric or string values);
* fallible pandas operations (column lookup, `.loc` by label) return `Option`,
  `none` standing for the `KeyError` the library would raise;
* Python floats are modelled as exact rationals (`math.ceil(x/y)` becomes the
  rational ceiling, the literal `0.001` becomes `1/1000`, `round(x, 3)`
  becomes rounding to the nearest multiple of `1/1000`, ties to even);
* `int(x)` on a number becomes truncation toward zero (`pyInt`).

A second, heap-instrumented copy of the pipeline (`buildH`) tracks pandas
object identity: each filtering assignment allocates a fresh object, `copy()`
allocates, and the one in-place statement (`df_new.loc[:, 'Group'] = ...`)
writes through the current reference.  It is used to verify that the caller's
input table is never mutated.
-/

namespace VariantMap

/-- A cell value of the variant table: cells are either numeric (per-sample
genotype fractions, group numbers) or strings (annotation fields, hover text,
filter flags). -/
inductive Val where
  | num (q : ℚ)
  | str (s : String)
deriving DecidableEq

/-- A table row: the pandas index label together with the row's named cells. -/
structure Row where
  idx : ℤ
  cells : List (String × Val)
deriving DecidableEq

/-- Value of row `r` in column `c` (`none` when the cell is absent). -/
def Row.get (r : Row) (c : String) : Option Val :=
  r.cells.lookup c

/-- A pandas DataFrame: named columns and labelled rows. -/
structure Table where
  cols : List String
  rows : List Row
deriving DecidableEq

/-- Does the character list start with the given needle? -/
def headMatch : List Char → List Char → Bool
  | _, [] => true
  | [], _ :: _ => false
  | h :: hs, n :: ns => h == n && headMatch hs ns

/-- Does the character list contain the needle as a contiguous sublist? -/
def hasSub : List Char → List Char → Bool
  | [], nd => nd.isEmpty
  | h :: hs, nd => headMatch (h :: hs) nd || hasSub hs nd

/-- Substring containment on strings; `'|'.join(needles)` used as a pandas
`str.contains` pattern of literal alternatives means: some needle occurs. -/
def strHasSub (hay nd : String) : Bool :=
  hasSub hay.toList nd.toList

/-- Left-to-right `Option`-valued map (a fallible pandas bulk operation). -/
def optMap (f : α → Option β) : List α → Option (List β)
  | [] => some []
  | a :: l => (f a).bind fun b => (optMap f l).map fun bs => b :: bs

/-- Left-to-right `Option`-valued fold (a loop of fallible reassignments). -/
def optFold (f : β → α → Option β) (b : β) : List α → Option β
  | [] => some b
  | a :: l => (f b a).bind fun b' => optFold f b' l

/-- Boolean-mask row filtering `df[df[c] <pred>]`: `none` models the
`KeyError` pandas raises when column `c` is absent. -/
def Table.subByCol (t : Table) (c : String) (keep : Option Val → Bool) : Option Table :=
  if c ∈ t.cols then some { t with rows := t.rows.filter fun r => keep (r.get c) } else none

/-- `df.loc[index_list, :]`: rows selected by index label in list order,
`none` modelling the `KeyError` for an absent label. -/
def Table.locIdx (t : Table) (idxs : List ℤ) : Option Table :=
  (optMap (fun i => t.rows.find? fun r => decide (r.idx = i)) idxs).map
    fun rs => { t with rows := rs }

/-- `pd.concat([a, b])` for frames sharing the same columns. -/
def Table.concat (a b : Table) : Table :=
  { cols := a.cols, rows := a.rows ++ b.rows }

/-- `df.T.loc[wanted, :].values.tolist()`: for each wanted label (an original
column of `t`) the list of that column's values across the rows; `none`
models the `KeyError` for a label that is not a column. -/
def Table.locT (t : Table) (wanted : List String) : Option (List (List Val)) :=
  optMap (fun c =>
    if c ∈ t.cols then optMap (fun r => r.get c) t.rows else none) wanted

/-- Row predicate of the sample filter `df[df[sample] == 0.0]`. -/
def sampleKeep (v : Option Val) : Bool :=
  decide (v = some (Val.num 0))

/-- Row predicate of the file filter `df[df[_filter] != '1']`. -/
def fileKeep (v : Option Val) : Bool :=
  !decide (v = some (Val.str "1"))

/-- Row predicate of the gene-name filter:
`df['Gene_name'].str.contains('|'.join([x + ';' for x in genes]))`. -/
def geneKeep (genes : List String) (v : Option Val) : Bool :=
  match v with
  | some (Val.str s) => (genes.map fun g => g ++ ";").any fun nd => strHasSub s nd
  | _ => false

/-- Row predicate of a generic annotation filter
`df[_key].str.contains('|'.join(annotation[_key]))`. -/
def othersKeep (vals : List String) (v : Option Val) : Bool :=
  match v with
  | some (Val.str s) => vals.any fun nd => strHasSub s nd
  | _ => false

/-- The annotation dict.  Presence of the reserved keys `'Gene_name'` and
`'index_list'` is tracked separately from emptiness of their value lists;
the remaining keys are kept in dict order. -/
structure Annot where
  gene_name : Option (List String)
  index_list : Option (List ℤ)
  others : List (String × List String)
deriving DecidableEq

/-- Python truthiness of the annotation dict: non-empty as a dict. -/
def Annot.truthy (a : Annot) : Bool :=
  a.gene_name.isSome || a.index_list.isSome || !a.others.isEmpty

/-- The reserved-keys block (`_variant.py` lines 186-203): when both
`'Gene_name'` and `'index_list'` are present and non-empty the two row
selections are concatenated, otherwise whichever is present and non-empty is
applied on its own. -/
def annotReserved (df : Table) (a : Annot) : Option Table :=
  match a.gene_name, a.index_list with
  | some gs, some is =>
    if gs ≠ [] ∧ is ≠ [] then
      (df.subByCol "Gene_name" (geneKeep gs)).bind fun dfg =>
        (df.locIdx is).map fun dfi => dfg.concat dfi
    else
      (if gs ≠ [] then df.subByCol "Gene_name" (geneKeep gs) else some df).bind fun df1 =>
        if is ≠ [] then df1.locIdx is else some df1
  | some gs, none => if gs ≠ [] then df.subByCol "Gene_name" (geneKeep gs) else some df
  | none, some is => if is ≠ [] then df.locIdx is else some df
  | none, none => some df

/-- The generic-keys loop (`_variant.py` lines 206-212): every non-reserved
key with a non-empty value list further filters the table. -/
def annotOthers (df : Table) (a : Annot) : Option Table :=
  optFold (fun t kv =>
    if kv.2 ≠ [] then t.subByCol kv.1 (othersKeep kv.2) else some t) df a.others

/-- Both annotation blocks, guarded by the dict's truthiness. -/
def annotStep (df : Table) (a : Option Annot) : Option Table :=
  match a with
  | none => some df
  | some an =>
    if an.truthy then (annotReserved df an).bind fun df1 => annotOthers df1 an
    else some df

/-- The sample-filter loop (`_variant.py` lines 215-217):
`for sample in filter_sample: df = df[df[sample] == 0.0]`. -/
def applySampleFilter (t : Table) (fs : List String) : Option Table :=
  optFold (fun t s => t.subByCol s sampleKeep) t fs

/-- The file-filter loop (`_variant.py` lines 220-222):
`for _filter in filter_file: df = df[df[_filter] != '1']`. -/
def applyFileFilter (t : Table) (ff : List String) : Option Table :=
  optFold (fun t f => t.subByCol f fileKeep) t ff

/-- Python truthiness of an optional-list argument: `None` and `[]` both skip
the corresponding loop, which is also what folding over `[]` does. -/
def listArg (o : Option (List α)) : List α :=
  o.getD []

/-- `int(x)` on a Python number: truncation toward zero. -/
def pyInt (q : ℚ) : ℤ :=
  if 0 ≤ q then ⌊q⌋ else ⌈q⌉

/-- `math.ceil(len(df) / entries_per_batch)`. -/
def numDivCeil (n e : ℕ) : ℤ :=
  ⌈(n : ℚ) / (e : ℚ)⌉

/-- `batch_size = math.ceil(len(df) / (math.ceil(len(df)/entries_per_batch) + 0.001))`
(`_variant.py` lines 231-234), the float `0.001` taken as the exact `1/1000`. -/
def batchSize (n e : ℕ) : ℕ :=
  (⌈(n : ℚ) / ((numDivCeil n e : ℚ) + 1 / 1000)⌉).toNat

/-- Group number of the row at 0-based position `pos`:
`np.divmod(np.arange(len(df)), batch_size)[0] + 1`. -/
def groupOf (bs pos : ℕ) : ℕ :=
  pos / bs + 1

/-- The largest group number assigned to any of `n` rows (0 when there are no
rows). -/
def numGroups (n e : ℕ) : ℕ :=
  if n = 0 then 0 else groupOf (batchSize n e) (n - 1)

/-- `df_new.loc[:, 'Group'] = np.divmod(np.arange(len(df_new)), batch_size)[0] + 1`:
a `Group` column holding each row's group number. -/
def addGroupCol (t : Table) (bs : ℕ) : Table :=
  { cols := if "Group" ∈ t.cols then t.cols else t.cols ++ ["Group"],
    rows := t.rows.enum.map fun ir =>
      { ir.2 with cells := ("Group", Val.num ((groupOf bs ir.1 : ℕ) : ℚ)) :: ir.2.cells } }

/-- `df_new = df_new[df_new['Group'].isin([int(batch_no_for_display)])]`. -/
def selectBatch (t : Table) (b : ℤ) : Table :=
  { t with rows := t.rows.filter fun r => decide (r.get "Group" = some (Val.num (b : ℚ))) }

/-- Label resolution and final reversal (`_variant.py` lines 258-271): map
each resolved sample through `sample_names` (keeping the identifier on a
`KeyError`), then reverse in place. -/
def resolve_names (so : List String) (sn : Option (List (String × String))) : List String :=
  match sn with
  | none => so.reverse
  | some m => (so.foldl (fun acc s => acc ++ [(m.lookup s).getD s]) []).reverse

/-- The keyword arguments of the build that the table pipeline consumes
(`samples` is the already-resolved `sample_order or metadata` list). -/
structure Params where
  entries_per_batch : ℕ
  batch_no : ℚ
  annot : Option Annot
  filter_sample : Option (List String)
  filter_file : Option (List String)
  samples : List String
  sample_names : Option (List (String × String))

/-- The data `_VariantMap.__init__` hands to the renderer. -/
structure BuildResult where
  batch_size : ℕ
  z : List (List Val)
  hover : List (List Val)
  names : List String
deriving DecidableEq

/-- The three filtering stages, in source order: annotation, sample filter,
file filter (`_variant.py` lines 186-222). -/
def filterPhase (t : Table) (p : Params) : Option Table :=
  (annotStep t p.annot).bind fun df =>
    (applySampleFilter df (listArg p.filter_sample)).bind fun df =>
      applyFileFilter df (listArg p.filter_file)

/-- The whole of `_VariantMap.__init__`'s table pipeline
(`_variant.py` lines 186-271). -/
def build (t : Table) (p : Params) : Option BuildResult :=
  (filterPhase t p).bind fun df_new =>
    let sample_order := p.samples.filter fun s => df_new.cols.contains s
    let bs := batchSize df_new.rows.length p.entries_per_batch
    let df3 := selectBatch (addGroupCol df_new bs) (pyInt p.batch_no)
    (df3.locT sample_order).bind fun z =>
      (df3.locT (sample_order.map fun s => "Hover_" ++ s)).map fun hover =>
        { batch_size := bs, z := z.reverse, hover := hover.reverse,
          names := resolve_names sample_order p.sample_names }

/-- `sorted(markers)`: Python's stable sort. -/
def pySorted (l : List ℚ) : List ℚ :=
  List.insertionSort (· ≤ ·) l

/-- Round-half-to-even to an integer, the rounding Python's `round` uses. -/
def roundHalfEven (q : ℚ) : ℤ :=
  if q - ⌊q⌋ < 1 / 2 then ⌊q⌋
  else if 1 / 2 < q - ⌊q⌋ then ⌊q⌋ + 1
  else if ⌊q⌋ % 2 = 0 then ⌊q⌋ else ⌊q⌋ + 1

/-- Python `round(x, 3)`: nearest multiple of `1/1000`, ties to even. -/
def pyRound3 (q : ℚ) : ℚ :=
  (roundHalfEven (q * 1000) : ℚ) / 1000

/-- `discrete_colorscale(markers, colors)` (`_variant.py` lines 360-371):
sort the markers, min-max normalize them (rounded to 3 decimal places), then
for each color emit the two control points of a step colorscale. -/
def discrete_colorscale (markers : List ℚ) (colors : List String) : List (ℚ × String) :=
  let ms := pySorted markers
  let m0 := ms.headD 0
  let mN := ms.getLastD 0
  let norm := ms.map fun v => pyRound3 ((v - m0) / (mN - m0))
  colors.enum.foldl
    (fun acc kc => acc ++ [(norm.getD kc.1 0, kc.2), (norm.getD (kc.1 + 1) 0, kc.2)]) []

/-- The normalized marker value the spec describes: min-max scaling of the
`j`-th marker (already in sorted order), rounded as the source rounds. -/
def normMark (markers : List ℚ) (j : ℕ) : ℚ :=
  pyRound3 ((markers.getD j 0 - markers.headD 0) / (markers.getLastD 0 - markers.headD 0))

/-! ### General-purpose lemmas -/

theorem ceil_as_floor (q : ℚ) : ⌈q⌉ = -⌊-q⌋ := by
  rw [Int.floor_neg, neg_neg]

theorem optFold_nil (f : β → α → Option β) (b : β) : optFold f b [] = some b := rfl

theorem optFold_cons (f : β → α → Option β) (b : β) (a : α) (l : List α) :
    optFold f b (a :: l) = (f b a).bind fun b' => optFold f b' l := rfl

theorem optMap_nil (f : α → Option β) : optMap f [] = some [] := rfl

theorem optMap_cons (f : α → Option β) (a : α) (l : List α) :
    optMap f (a :: l) = (f a).bind fun b => (optMap f l).map fun bs => b :: bs := rfl

/-! ### C1: the sample filter -/

/-- A two-row table: the sample column `S1` holds `0.0` in row 0 and a
non-zero value in row 1. -/
def t1C : Table :=
  ⟨["S1"], [⟨0, [("S1", Val.num 0)]⟩, ⟨1, [("S1", Val.num 1)]⟩]⟩

/-- C1 counterexample: filtering on sample `S1` keeps exactly the row whose
`S1` value is `0.0` and drops the non-zero row — the opposite of the claimed
behaviour, which would have produced the table containing only row 1. -/
theorem c1_counterexample :
    applySampleFilter t1C ["S1"] ≠
      some ⟨["S1"], [⟨1, [("S1", Val.num 1)]⟩]⟩ ∧
    applySampleFilter t1C ["S1"] =
      some ⟨["S1"], [⟨0, [("S1", Val.num 0)]⟩]⟩ := by
  constructor <;>
    simp [applySampleFilter, optFold, Table.subByCol, sampleKeep, Row.get, t1C,
      List.filter, List.lookup]

/-- C1 (amended): for every table and list of sample identifiers naming
actual columns, the sample-filter step keeps exactly those rows whose value
equals the numeric `0.0` in every listed column (dropping all others), in the
original order; the listed filters compose by intersection. -/
theorem c1_sample_filter (t : Table) (fs : List String)
    (h : ∀ s ∈ fs, s ∈ t.cols) :
    applySampleFilter t fs =
      some { cols := t.cols,
             rows := t.rows.filter fun r =>
               fs.all fun s => decide (r.get s = some (Val.num 0)) } := by
  induction fs generalizing t with
  | nil =>
    simp [applySampleFilter, optFold]
  | cons s fs ih =>
    have hs : s ∈ t.cols := h s (by simp)
    have hrest : ∀ x ∈ fs, x ∈ t.cols := fun x hx => h x (by simp [hx])
    have hstep : applySampleFilter t (s :: fs) =
        applySampleFilter
          { cols := t.cols, rows := t.rows.filter fun r => sampleKeep (r.get s) } fs := by
      simp [applySampleFilter, optFold, Table.subByCol, if_pos hs]
    rw [hstep,
      ih { cols := t.cols, rows := t.rows.filter fun r => sampleKeep (r.get s) } hrest]
    simp only [List.filter_filter, Option.some.injEq, Table.mk.injEq, true_and]
    apply List.filter_congr
    intro r _
    simp [sampleKeep, List.all_cons, Bool.and_comm]

/-- C1 witness: the amended theorem applied to the concrete two-row table. -/
theorem c1_witness :
    (∀ s ∈ ["S1"], s ∈ t1C.cols) ∧
    applySampleFilter t1C ["S1"] =
      some { cols := t1C.cols,
             rows := t1C.rows.filter fun r =>
               ["S1"].all fun s => decide (r.get s = some (Val.num 0)) } :=
  ⟨by decide, c1_sample_filter t1C ["S1"] (by decide)⟩

/-! ### C7: label resolution -/

/-- C7: with a `sample_names` mapping, each label is the mapped name when the
identifier is a key and the identifier itself otherwise, and the final label
list is the reverse of this substituted list; at
`sample_order = ["S1","S2"]`, `sample_names = {"S1": "Patient A"}` the
pre-reversal labels are `["Patient A","S2"]`, so the result is their
reverse. -/
theorem c7_labels :
    (∀ (so : List String) (sn : List (String × String)),
        resolve_names so (some sn) =
          (so.map fun s => ((sn.lookup s).getD s)).reverse) ∧
    resolve_names ["S1", "S2"] (some [("S1", "Patient A")]) = ["S2", "Patient A"] := by
  constructor
  · intro so sn
    simp only [resolve_names]
    congr 1
    suffices hgen : ∀ acc : List String,
        so.foldl (fun acc s => acc ++ [(sn.lookup s).getD s]) acc =
          acc ++ so.map fun s => (sn.lookup s).getD s by
      simpa using hgen []
    induction so with
    | nil => simp
    | cons a l ih => intro acc; simp [ih]
  · decide

/-! ### C10: discrete_colorscale is sort-invariant -/

/-- C10: `discrete_colorscale` sorts its markers before normalizing, so two
marker lists that are permutations of each other give identical colorscales
for every colors list. -/
theorem c10_perm_invariant (m₁ m₂ : List ℚ) (colors : List String)
    (h : m₁.Perm m₂) :
    discrete_colorscale m₁ colors = discrete_colorscale m₂ colors := by
  have hs : pySorted m₁ = pySorted m₂ :=
    List.eq_of_perm_of_sorted
      (((List.perm_insertionSort _ m₁).trans h).trans
        (List.perm_insertionSort _ m₂).symm)
      (List.sorted_insertionSort _ m₁) (List.sorted_insertionSort _ m₂)
  unfold discrete_colorscale
  rw [hs]

/-- C10 witness: the theorem applied to the permuted pair `[1,0]` / `[0,1]`. -/
theorem c10_witness :
    ([(1 : ℚ), 0].Perm [0, 1]) ∧
    discrete_colorscale [1, 0] ["#fff"] = discrete_colorscale [0, 1] ["#fff"] :=
  ⟨List.Perm.swap 0 1 [], c10_perm_invariant [1, 0] [0, 1] ["#fff"] (List.Perm.swap 0 1 [])⟩

/-! ### C2: the batching partition loses a row -/

set_option maxRecDepth 8000 in
/-- C2 (evaluation at the failing input): with `n = 1002` post-filter rows
and the default `entries_per_batch = 2500`, `ceil(n/e) = 1`, yet
`batch_size = ceil(1002 / 1.001) = 1001`, so the row at position `1001` is
assigned group `2` and belongs to none of the batches `1..ceil(n/e)`: the
union of those batches misses it. -/
theorem c2_batch_union_misses_a_row :
    numDivCeil 1002 2500 = 1 ∧
    batchSize 1002 2500 = 1001 ∧
    groupOf (batchSize 1002 2500) 1001 = 2 ∧
    1001 ∈ List.range 1002 ∧
    1001 ∉ (List.range 1002).filter fun i => groupOf (batchSize 1002 2500) i == 1 := by
  have hbs : batchSize 1002 2500 = 1001 := by
    norm_num [batchSize, numDivCeil, ceil_as_floor]; decide
  refine ⟨?_, hbs, ?_, ?_, ?_⟩
  · norm_num [numDivCeil, ceil_as_floor]
  · rw [hbs]; decide
  · decide
  · rw [hbs]; decide

/-! ### C9: batch_no is truncated toward zero -/

/-- C9: the build uses the requested batch number only through `int(...)`
truncation toward zero, so any two `batch_no` values with the same truncation
produce identical output. -/
theorem c9_batch_no_truncation (t : Table) (p : Params) (b₁ b₂ : ℚ)
    (h : pyInt b₁ = pyInt b₂) :
    build t { p with batch_no := b₁ } = build t { p with batch_no := b₂ } := by
  unfold build filterPhase
  dsimp only
  rw [h]

/-- One-row, one-sample table used by the concrete batch-number check. -/
def t9C : Table :=
  ⟨["S1", "Hover_S1"], [⟨0, [("S1", Val.num 1), ("Hover_S1", Val.str "h")]⟩]⟩

/-- Parameters for the concrete batch-number check. -/
def p9C : Params :=
  ⟨2, 0, none, none, none, ["S1"], none⟩

/-- C9 witness: `batch_no = 1.9` and `batch_no = 1` truncate alike and give
the same build output. -/
theorem c9_witness :
    pyInt (19 / 10) = pyInt 1 ∧
    build t9C { p9C with batch_no := 19 / 10 } =
      build t9C { p9C with batch_no := 1 } :=
  ⟨by norm_num [pyInt], c9_batch_no_truncation t9C p9C (19 / 10) 1 (by norm_num [pyInt])⟩

/-! ### C3: gene-name and index-list selections are concatenated -/

/-- C3: when the annotation supplies both a non-empty gene-name list and a
non-empty index list (and no other keys), the resulting table is the rows
whose gene-name field contains some `name + ";"` needle followed by the rows
at the explicit indices — a concatenation, so a row matched by both criteria
appears twice. -/
theorem c3_gene_index_union (df : Table) (an : Annot) (gs : List String)
    (is : List ℤ) (irows : List Row)
    (hg : an.gene_name = some gs) (hgne : gs ≠ [])
    (hi : an.index_list = some is) (hine : is ≠ [])
    (ho : an.others = [])
    (hcol : "Gene_name" ∈ df.cols)
    (hfind : optMap (fun i => df.rows.find? fun r => decide (r.idx = i)) is = some irows) :
    annotStep df (some an) =
      some { cols := df.cols,
             rows := (df.rows.filter fun r => geneKeep gs (r.get "Gene_name")) ++ irows } := by
  obtain ⟨g, i, o⟩ := an
  simp only [Annot.gene_name] at hg
  simp only [Annot.index_list] at hi
  simp only [Annot.others] at ho
  subst hg hi ho
  have htr : Annot.truthy ⟨some gs, some is, []⟩ = true := by
    simp [Annot.truthy]
  simp only [annotStep, htr, if_true]
  simp only [annotReserved, if_pos (And.intro hgne hine)]
  simp only [Table.subByCol, if_pos hcol, Option.some_bind, Table.locIdx, hfind,
    Option.map_some, Option.some_bind]
  simp [annotOthers, optFold, Table.concat]

/-- A one-column row for the concrete gene/index test table. -/
def gRow (i : ℤ) (g : String) : Row :=
  ⟨i, [("Gene_name", Val.str g)]⟩

/-- Ten rows indexed 0..9; only rows 2 and 5 carry the `GENE1;` token. -/
def t3C : Table :=
  ⟨["Gene_name"],
   [gRow 0 "A;", gRow 1 "A;", gRow 2 "GENE1;", gRow 3 "A;", gRow 4 "A;",
    gRow 5 "GENE1;", gRow 6 "A;", gRow 7 "A;", gRow 8 "A;", gRow 9 "A;"]⟩

/-- Annotation selecting gene `GENE1` (rows 2 and 5) and indices `[5, 9]`. -/
def an3C : Annot :=
  ⟨some ["GENE1"], some [5, 9], []⟩

/-- C3 witness: in the concrete table the result's index multiset is
`[2, 5, 5, 9]` — row 5 duplicated, one of the two outcomes the claim
allows. -/
theorem c3_witness :
    optMap (fun i => t3C.rows.find? fun r => decide (r.idx = i)) [5, 9] =
      some [gRow 5 "GENE1;", gRow 9 "A;"] ∧
    annotStep t3C (some an3C) =
      some { cols := t3C.cols,
             rows := (t3C.rows.filter fun r => geneKeep ["GENE1"] (r.get "Gene_name")) ++
               [gRow 5 "GENE1;", gRow 9 "A;"] } ∧
    ((annotStep t3C (some an3C)).map fun t => t.rows.map Row.idx) = some [2, 5, 5, 9] :=
  ⟨by decide,
   c3_gene_index_union t3C an3C ["GENE1"] [5, 9] [gRow 5 "GENE1;", gRow 9 "A;"]
     rfl (by decide) rfl (by decide) rfl (by decide) (by decide),
   by decide⟩

/-! ### C5: an empty resolved sample order returns empty matrices -/

theorem resolve_names_nil (sn : Option (List (String × String))) :
    resolve_names [] sn = [] := by
  cases sn <;> simp [resolve_names]

/-- One-row table whose only column `A` is not a sample named by `p5C`. -/
def t5C : Table :=
  ⟨["A"], [⟨0, [("A", Val.num 1)]⟩]⟩

/-- Parameters asking for sample `S1`, which is not a column of `t5C`, so
the resolved sample order is empty. -/
def p5C : Params :=
  ⟨10, 1, none, none, none, ["S1"], none⟩

/-- The batch size of a single row at `entries_per_batch = 10`. -/
theorem bs_one_ten : batchSize 1 10 = 1 := by
  norm_num [batchSize, numDivCeil, ceil_as_floor]

/-- C5 counterexample: with an empty resolved sample order the build
completes and returns a result (empty matrices and label list) — it does not
fail with a lookup error as the claim states. -/
theorem c5_counterexample :
    build t5C p5C = some { batch_size := 1, z := [], hover := [], names := [] } := by
  have hf : filterPhase t5C p5C = some t5C := rfl
  simp only [build, hf, Option.some_bind]
  simp [t5C, p5C, bs_one_ten, Table.locT, optMap, resolve_names]

/-- C5 (amended): whenever the resolved sample order (the sample list
intersected with the table's columns) is empty, the build completes and
returns empty class-code and hover matrices and an empty label list. -/
theorem c5_empty_sample_order (t : Table) (p : Params) (df : Table)
    (hf : filterPhase t p = some df)
    (hso : p.samples.filter (fun s => df.cols.contains s) = []) :
    build t p =
      some { batch_size := batchSize df.rows.length p.entries_per_batch,
             z := [], hover := [], names := [] } := by
  simp only [build, hf, Option.some_bind]
  simp only [hso]
  simp [Table.locT, optMap, resolve_names_nil]

/-- C5 witness: the amended theorem applied to the concrete table. -/
theorem c5_witness :
    filterPhase t5C p5C = some t5C ∧
    p5C.samples.filter (fun s => t5C.cols.contains s) = [] ∧
    build t5C p5C =
      some { batch_size := batchSize t5C.rows.length p5C.entries_per_batch,
             z := [], hover := [], names := [] } :=
  ⟨rfl, by decide, c5_empty_sample_order t5C p5C t5C rfl (by decide)⟩

/-! ### C4: an out-of-range batch number yields empty matrices -/

theorem map_nilconst_reverse (l : List α) :
    (l.map fun _ => ([] : List Val)).reverse = l.map fun _ => ([] : List Val) := by
  rw [show (fun _ : α => ([] : List Val)) = Function.const α [] from rfl]
  rw [List.map_const, List.reverse_replicate]

theorem locT_nil_rows (tb : Table) (ht : tb.rows = []) (wanted : List String)
    (h : ∀ c ∈ wanted, c ∈ tb.cols) :
    tb.locT wanted = some (wanted.map fun _ => ([] : List Val)) := by
  induction wanted with
  | nil => rfl
  | cons c l ih =>
    have hc : c ∈ tb.cols := h c (by simp)
    have hl := ih fun x hx => h x (by simp [hx])
    simp only [Table.locT] at hl ⊢
    rw [ht] at hl
    rw [optMap_cons, if_pos hc, ht, optMap_nil, Option.some_bind, hl]
    rfl

theorem mem_addGroupCol_cols (tb : Table) (bs : ℕ) (c : String) (hc : c ∈ tb.cols) :
    c ∈ (addGroupCol tb bs).cols := by
  simp only [addGroupCol]
  split
  · exact hc
  · exact List.mem_append_left _ hc

theorem groupOf_le_numGroups (n e pos : ℕ) (hpos : pos < n) :
    groupOf (batchSize n e) pos ≤ numGroups n e := by
  have hn : n ≠ 0 := by omega
  rw [numGroups, if_neg hn]
  exact Nat.add_le_add_right
    (Nat.div_le_div_right (Nat.le_sub_one_of_lt hpos)) 1

/-- C4: whenever the (truncated) requested batch number exceeds the largest
assigned group number, the build completes and returns a result whose
class-code matrix and hover matrix have one empty row per resolved sample. -/
theorem c4_out_of_range_batch (t : Table) (p : Params) (df : Table)
    (hf : filterPhase t p = some df)
    (hhover : ∀ s ∈ p.samples.filter (fun s => df.cols.contains s),
      ("Hover_" ++ s) ∈ df.cols)
    (hb : (numGroups df.rows.length p.entries_per_batch : ℤ) < pyInt p.batch_no) :
    ∃ res, build t p = some res ∧
      res.z = (p.samples.filter fun s => df.cols.contains s).map (fun _ => ([] : List Val)) ∧
      res.hover =
        (p.samples.filter fun s => df.cols.contains s).map (fun _ => ([] : List Val)) := by
  have hso : ∀ s ∈ p.samples.filter (fun s => df.cols.contains s), s ∈ df.cols := by
    intro s hs
    have := (List.mem_filter.mp hs).2
    simpa using this
  have hsel : (selectBatch
      (addGroupCol df (batchSize df.rows.length p.entries_per_batch))
      (pyInt p.batch_no)).rows = [] := by
    simp only [selectBatch]
    apply List.filter_eq_nil_iff.mpr
    intro r hr
    simp only [addGroupCol, List.mem_map] at hr
    obtain ⟨ir, hir, rfl⟩ := hr
    have hlt : ir.1 < df.rows.length :=
      (List.getElem?_eq_some.mp (List.mem_enum_iff_getElem?.mp hir)).1
    have hle : groupOf (batchSize df.rows.length p.entries_per_batch) ir.1 ≤
        numGroups df.rows.length p.entries_per_batch :=
      groupOf_le_numGroups _ _ _ hlt
    have hgb : ((groupOf (batchSize df.rows.length p.entries_per_batch) ir.1 : ℕ) : ℤ) <
        pyInt p.batch_no := lt_of_le_of_lt (by exact_mod_cast hle) hb
    simp only [Row.get, List.lookup, beq_self_eq_true, decide_eq_true_eq,
      Option.some.injEq, Val.num.injEq]
    intro hq
    have : ((groupOf (batchSize df.rows.length p.entries_per_batch) ir.1 : ℕ) : ℤ) =
        pyInt p.batch_no := by exact_mod_cast hq
    omega
  have hcolsel : (selectBatch
      (addGroupCol df (batchSize df.rows.length p.entries_per_batch))
      (pyInt p.batch_no)).cols =
      (addGroupCol df (batchSize df.rows.length p.entries_per_batch)).cols := rfl
  have hz := locT_nil_rows
    (selectBatch (addGroupCol df (batchSize df.rows.length p.entries_per_batch))
      (pyInt p.batch_no)) hsel
    (p.samples.filter fun s => df.cols.contains s)
    (by intro c hc; rw [hcolsel]; exact mem_addGroupCol_cols _ _ _ (hso c hc))
  have hh := locT_nil_rows
    (selectBatch (addGroupCol df (batchSize df.rows.length p.entries_per_batch))
      (pyInt p.batch_no)) hsel
    ((p.samples.filter fun s => df.cols.contains s).map fun s => "Hover_" ++ s)
    (by
      intro c hc
      rw [hcolsel]
      obtain ⟨s, hs, rfl⟩ := List.mem_map.mp hc
      exact mem_addGroupCol_cols _ _ _ (hhover s hs))
  refine ⟨{ batch_size := batchSize df.rows.length p.entries_per_batch,
            z := ((p.samples.filter fun s => df.cols.contains s).map
              fun _ => ([] : List Val)).reverse,
            hover := (((p.samples.filter fun s => df.cols.contains s).map
              fun s => "Hover_" ++ s).map fun _ => ([] : List Val)).reverse,
            names := resolve_names (p.samples.filter fun s => df.cols.contains s)
              p.sample_names }, ?_, ?_, ?_⟩
  · simp only [build, hf, Option.some_bind]
    rw [hz, Option.some_bind, hh]
    rfl
  · simp only [map_nilconst_reverse]
  · simp [List.map_map, List.reverse_replicate,
      show ((fun _ : String => ([] : List Val)) ∘ fun s => "Hover_" ++ s) =
        fun _ : String => ([] : List Val) from rfl]

/-- A two-row table with sample column `S1` and its hover column; at
`entries_per_batch = 2` both rows fall in group 1. -/
def t4C : Table :=
  ⟨["S1", "Hover_S1"],
   [⟨0, [("S1", Val.num 1), ("Hover_S1", Val.str "a")]⟩,
    ⟨1, [("S1", Val.num 1), ("Hover_S1", Val.str "b")]⟩]⟩

/-- Parameters requesting batch 5 of a table that only has group 1. -/
def p4C : Params :=
  ⟨2, 5, none, none, none, ["S1"], none⟩

/-- C4 witness: requesting batch 5 when only group 1 exists returns a result
with one empty row per resolved sample, not an error. -/
theorem c4_witness :
    filterPhase t4C p4C = some t4C ∧
    (∀ s ∈ p4C.samples.filter (fun s => t4C.cols.contains s),
      ("Hover_" ++ s) ∈ t4C.cols) ∧
    ((numGroups t4C.rows.length p4C.entries_per_batch : ℤ) < pyInt p4C.batch_no) ∧
    (∃ res, build t4C p4C = some res ∧
      res.z = (p4C.samples.filter fun s => t4C.cols.contains s).map
        (fun _ => ([] : List Val)) ∧
      res.hover = (p4C.samples.filter fun s => t4C.cols.contains s).map
        (fun _ => ([] : List Val))) := by
  have hb : (numGroups t4C.rows.length p4C.entries_per_batch : ℤ) < pyInt p4C.batch_no := by
    norm_num [t4C, p4C, numGroups, groupOf, batchSize, numDivCeil, ceil_as_floor, pyInt]
  exact ⟨rfl, by decide, hb, c4_out_of_range_batch t4C p4C t4C rfl (by decide) hb⟩

/-! ### C8: shape of the discrete colorscale -/

theorem getLastD_mem (l : List ℚ) (d : ℚ) (h : l ≠ []) : l.getLastD d ∈ l := by
  rw [List.getLastD_eq_getLast?, List.getLast?_eq_getLast l h]
  simpa using List.getLast_mem h

theorem headD_le_of_sorted (l : List ℚ) (hs : l.Sorted (· ≤ ·)) (v : ℚ) (hv : v ∈ l) :
    l.headD 0 ≤ v := by
  cases l with
  | nil => cases hv
  | cons a t =>
    rcases List.mem_cons.mp hv with rfl | hvt
    · simp
    · simpa using (List.sorted_cons.mp hs).1 v hvt

theorem le_getLastD_of_sorted (l : List ℚ) (hs : l.Sorted (· ≤ ·)) (v : ℚ) (hv : v ∈ l) :
    v ≤ l.getLastD 0 := by
  induction l with
  | nil => cases hv
  | cons a t ih =>
    rcases List.mem_cons.mp hv with rfl | hvt
    · cases t with
      | nil => simp
      | cons b t2 =>
        have hmem : (b :: t2).getLastD 0 ∈ b :: t2 := getLastD_mem _ _ (by simp)
        have hrel := (List.sorted_cons.mp hs).1 _ hmem
        simpa [List.getLastD_eq_getLast?, List.getLast?_cons_cons] using hrel
    · have hle := ih (List.sorted_cons.mp hs).2 hvt
      cases t with
      | nil => cases hvt
      | cons b t2 =>
        simpa [List.getLastD_eq_getLast?, List.getLast?_cons_cons] using hle

theorem headD_lt_getLastD (l : List ℚ) (hs : l.Sorted (· < ·)) (h2 : 2 ≤ l.length) :
    l.headD 0 < l.getLastD 0 := by
  match l, h2 with
  | a :: b :: t, _ =>
    have hmem : (b :: t).getLastD 0 ∈ b :: t := getLastD_mem _ _ (by simp)
    have hrel := (List.sorted_cons.mp hs).1 _ hmem
    simpa [List.getLastD_eq_getLast?, List.getLast?_cons_cons] using hrel

theorem roundHalfEven_nonneg (q : ℚ) (h : 0 ≤ q) : 0 ≤ roundHalfEven q := by
  have h0 : 0 ≤ ⌊q⌋ := Int.floor_nonneg.mpr h
  unfold roundHalfEven
  split_ifs <;> omega

theorem roundHalfEven_le_thousand (q : ℚ) (h : q ≤ 1000) : roundHalfEven q ≤ 1000 := by
  have hf : (⌊q⌋ : ℚ) ≤ q := Int.floor_le q
  unfold roundHalfEven
  split_ifs with h1 h2 h3
  · exact_mod_cast hf.trans h
  · by_contra hc
    push_neg at hc h1
    have h1000 : (1000 : ℚ) ≤ (⌊q⌋ : ℚ) := by exact_mod_cast by omega
    linarith
  · exact_mod_cast hf.trans h
  · by_contra hc
    push_neg at hc h1
    have h1000 : (1000 : ℚ) ≤ (⌊q⌋ : ℚ) := by exact_mod_cast by omega
    linarith

theorem pyRound3_bounds (q : ℚ) (h0 : 0 ≤ q) (h1 : q ≤ 1) :
    0 ≤ pyRound3 q ∧ pyRound3 q ≤ 1 := by
  have hr0 : 0 ≤ roundHalfEven (q * 1000) := roundHalfEven_nonneg _ (by linarith)
  have hr1 : roundHalfEven (q * 1000) ≤ 1000 := roundHalfEven_le_thousand _ (by linarith)
  unfold pyRound3
  constructor
  · apply div_nonneg _ (by norm_num)
    exact_mod_cast hr0
  · rw [div_le_one (by norm_num)]
    exact_mod_cast hr1

theorem normMark_bounds (markers : List ℚ) (hsort : markers.Sorted (· < ·))
    (h2 : 2 ≤ markers.length) (j : ℕ) (hj : j < markers.length) :
    0 ≤ normMark markers j ∧ normMark markers j ≤ 1 := by
  have hle : markers.Sorted (· ≤ ·) := hsort.imp le_of_lt
  have hvmem : markers.getD j 0 ∈ markers := by
    rw [List.getD_eq_getElem?_getD, List.getElem?_eq_getElem hj]
    simpa using List.getElem_mem hj
  have hlo := headD_le_of_sorted markers hle _ hvmem
  have hhi := le_getLastD_of_sorted markers hle _ hvmem
  have hlt := headD_lt_getLastD markers hsort h2
  have hpos : 0 < markers.getLastD 0 - markers.headD 0 := by linarith
  apply pyRound3_bounds
  · exact div_nonneg (by linarith) (le_of_lt hpos)
  · rw [div_le_one hpos]
    linarith

theorem getD_map_lt (f : ℚ → ℚ) (l : List ℚ) (j : ℕ) (hj : j < l.length) :
    (l.map f).getD j 0 = f (l.getD j 0) := by
  rw [List.getD_eq_getElem?_getD, List.getElem?_map, List.getD_eq_getElem?_getD,
    List.getElem?_eq_getElem hj]
  simp

theorem dcs_foldl (norm : List ℚ) (l : List (ℕ × String)) (acc : List (ℚ × String)) :
    l.foldl
      (fun acc kc => acc ++ [(norm.getD kc.1 0, kc.2), (norm.getD (kc.1 + 1) 0, kc.2)]) acc =
      acc ++ (l.map fun kc =>
        [(norm.getD kc.1 0, kc.2), (norm.getD (kc.1 + 1) 0, kc.2)]).flatten := by
  induction l generalizing acc with
  | nil => simp
  | cons a l ih =>
    rw [List.foldl_cons, ih]
    simp [List.append_assoc]

/-- C8: for strictly increasing markers and one fewer colors, the colorscale
is exactly, for each color `i` in order, the two control points
`(normMark i, color i)` and `(normMark (i+1), color i)` — `normMark` being
min-max normalization (with the source's 3-decimal rounding) — and every
emitted position lies in `[0, 1]`. -/
theorem c8_discrete_colorscale (markers : List ℚ) (colors : List String)
    (hsort : markers.Sorted (· < ·))
    (hlen : markers.length = colors.length + 1) :
    discrete_colorscale markers colors =
      (colors.enum.map fun kc =>
        [(normMark markers kc.1, kc.2), (normMark markers (kc.1 + 1), kc.2)]).flatten ∧
    ∀ pr ∈ discrete_colorscale markers colors, 0 ≤ pr.1 ∧ pr.1 ≤ 1 := by
  have hms : pySorted markers = markers :=
    List.Sorted.insertionSort_eq (hsort.imp fun h => le_of_lt h)
  have hEq : discrete_colorscale markers colors =
      (colors.enum.map fun kc =>
        [(normMark markers kc.1, kc.2), (normMark markers (kc.1 + 1), kc.2)]).flatten := by
    simp only [discrete_colorscale, hms]
    rw [dcs_foldl, List.nil_append]
    congr 1
    apply List.map_congr_left
    intro kc hkc
    have hk : kc.1 < colors.length :=
      (List.getElem?_eq_some.mp (List.mem_enum_iff_getElem?.mp hkc)).1
    rw [getD_map_lt _ _ _ (by omega), getD_map_lt _ _ _ (by omega)]
    rfl
  refine ⟨hEq, ?_⟩
  intro pr hpr
  rw [hEq] at hpr
  obtain ⟨L, hL, hprL⟩ := List.mem_flatten.mp hpr
  obtain ⟨kc, hkc, rfl⟩ := List.mem_map.mp hL
  have hk : kc.1 < colors.length :=
    (List.getElem?_eq_some.mp (List.mem_enum_iff_getElem?.mp hkc)).1
  have h2 : 2 ≤ markers.length := by omega
  rcases List.mem_cons.mp hprL with rfl | hprL2
  · exact normMark_bounds markers hsort h2 _ (by omega)
  · rcases List.mem_cons.mp hprL2 with rfl | hempty
    · exact normMark_bounds markers hsort h2 _ (by omega)
    · cases hempty

/-- C8 witness: `discrete_colorscale([0,1], ["#fff"])` is
`[[0,"#fff"],[1,"#fff"]]`, matching the theorem's shape. -/
theorem c8_witness :
    ([(0 : ℚ), 1].Sorted (· < ·)) ∧ ([(0 : ℚ), 1].length = ["#fff"].length + 1) ∧
    (discrete_colorscale [0, 1] ["#fff"] =
      ((["#fff"].enum).map fun kc =>
        [(normMark [0, 1] kc.1, kc.2), (normMark [0, 1] (kc.1 + 1), kc.2)]).flatten ∧
      ∀ pr ∈ discrete_colorscale [0, 1] ["#fff"], 0 ≤ pr.1 ∧ pr.1 ≤ 1) ∧
    discrete_colorscale [0, 1] ["#fff"] = [(0, "#fff"), (1, "#fff")] := by
  refine ⟨?_, rfl, c8_discrete_colorscale [0, 1] ["#fff"] ?_ rfl, ?_⟩
  · simp [List.sorted_cons]
  · simp [List.sorted_cons]
  · norm_num [discrete_colorscale, pySorted, pyRound3, roundHalfEven, List.insertionSort,
      List.orderedInsert, List.enum, List.enumFrom]

/-! ### C6: the input table is never mutated

pandas object identity is modelled by a heap of tables.  The caller's frame
sits at address 0; every filtering reassignment (`df = df[...]`) and
`df.copy()` allocates a fresh object, and the one in-place statement of the
build — `df_new.loc[:, 'Group'] = ...` — writes through the current
reference.  The claim is that address 0 still holds the original table when
the build returns. -/

/-- A heap of pandas objects plus the reference the variable `df` holds. -/
structure HState where
  heap : List Table
  cur : ℕ

/-- Dereference the current object. -/
def HState.read (st : HState) : Table :=
  st.heap.getD st.cur ⟨[], []⟩

/-- Allocate a fresh object and point `df` at it (a pandas reassignment). -/
def hAlloc (st : HState) (tb : Table) : HState :=
  ⟨st.heap ++ [tb], st.heap.length⟩

/-- Mutate the current object in place (`.loc[...] = ...`). -/
def hWrite (st : HState) (tb : Table) : HState :=
  ⟨st.heap.set st.cur tb, st.cur⟩

/-- One `df = f(df)` statement: compute from the current object, allocate. -/
def allocStep (f : Table → Option Table) (st : HState) : Option HState :=
  (f st.read).map fun tb => hAlloc st tb

/-- Heap version of the reserved-keys annotation block; branches that assign
`df` allocate, branches that do nothing leave the reference alone. -/
def annotReservedH (st : HState) (a : Annot) : Option HState :=
  match a.gene_name, a.index_list with
  | some gs, some is =>
    if gs ≠ [] ∧ is ≠ [] then
      allocStep (fun df => (df.subByCol "Gene_name" (geneKeep gs)).bind fun dfg =>
        (df.locIdx is).map fun dfi => dfg.concat dfi) st
    else
      (if gs ≠ [] then allocStep (fun df => df.subByCol "Gene_name" (geneKeep gs)) st
       else some st).bind fun st1 =>
        if is ≠ [] then allocStep (fun df => df.locIdx is) st1 else some st1
  | some gs, none =>
    if gs ≠ [] then allocStep (fun df => df.subByCol "Gene_name" (geneKeep gs)) st
    else some st
  | none, some is =>
    if is ≠ [] then allocStep (fun df => df.locIdx is) st else some st
  | none, none => some st

/-- Heap version of the generic-keys annotation loop. -/
def annotOthersH (st : HState) (a : Annot) : Option HState :=
  optFold (fun st kv =>
    if kv.2 ≠ [] then allocStep (fun tb => tb.subByCol kv.1 (othersKeep kv.2)) st
    else some st) st a.others

/-- Heap version of the annotation stage. -/
def annotStepH (st : HState) (a : Option Annot) : Option HState :=
  match a with
  | none => some st
  | some an =>
    if an.truthy then (annotReservedH st an).bind fun st1 => annotOthersH st1 an
    else some st

/-- Heap version of the sample-filter loop. -/
def sampleFilterH (st : HState) (fs : List String) : Option HState :=
  optFold (fun st s => allocStep (fun tb => tb.subByCol s sampleKeep) st) st fs

/-- Heap version of the file-filter loop. -/
def fileFilterH (st : HState) (ff : List String) : Option HState :=
  optFold (fun st f => allocStep (fun tb => tb.subByCol f fileKeep) st) st ff

/-- The tail of the build after the filters: `df_new = df.copy()` allocates,
the `Group` column is written in place through `df_new`'s reference, the
batch subset allocates again, and the matrices are read off. -/
def buildFinish (st2 : HState) (p : Params) : Option (HState × BuildResult) :=
  let df := st2.read
  let sample_order := p.samples.filter fun s => df.cols.contains s
  let bs := batchSize df.rows.length p.entries_per_batch
  let st3 := hWrite (hAlloc st2 df) (addGroupCol df bs)
  let st4 := hAlloc st3 (selectBatch st3.read (pyInt p.batch_no))
  (st4.read.locT sample_order).bind fun z =>
    (st4.read.locT (sample_order.map fun s => "Hover_" ++ s)).map fun hover =>
      (st4, { batch_size := bs, z := z.reverse, hover := hover.reverse,
              names := resolve_names sample_order p.sample_names })

/-- The heap-instrumented build: the caller's table is placed at address 0
and the pipeline of `_VariantMap.__init__` is run over the heap. -/
def buildH (t : Table) (p : Params) : Option (HState × BuildResult) :=
  (annotStepH ⟨[t], 0⟩ p.annot).bind fun st0 =>
    (sampleFilterH st0 (listArg p.filter_sample)).bind fun st1 =>
      (fileFilterH st1 (listArg p.filter_file)).bind fun st2 =>
        buildFinish st2 p

theorem head?_hAlloc (st : HState) (tb : Table) (a : Table)
    (ha : st.heap.head? = some a) : (hAlloc st tb).heap.head? = some a := by
  cases hh : st.heap with
  | nil => rw [hh] at ha; cases ha
  | cons x xs =>
    rw [hh] at ha
    simpa [hAlloc, hh] using ha

theorem allocStep_head (f : Table → Option Table) (st st' : HState) (a : Table)
    (h : allocStep f st = some st') (ha : st.heap.head? = some a) :
    st'.heap.head? = some a := by
  unfold allocStep at h
  cases hf : f st.read with
  | none => rw [hf] at h; cases h
  | some tb =>
    rw [hf, Option.map_some'] at h
    obtain rfl := Option.some.inj h
    exact head?_hAlloc st tb a ha

theorem condAlloc_head (c : Prop) [Decidable c] (f : Table → Option Table)
    (st st' : HState) (a : Table)
    (h : (if c then allocStep f st else some st) = some st')
    (ha : st.heap.head? = some a) : st'.heap.head? = some a := by
  by_cases hc : c
  · rw [if_pos hc] at h
    exact allocStep_head f st st' a h ha
  · rw [if_neg hc] at h
    obtain rfl := Option.some.inj h
    exact ha

theorem optFold_head {α : Type} (g : HState → α → Option HState)
    (hg : ∀ st x st', g st x = some st' →
      ∀ a, st.heap.head? = some a → st'.heap.head? = some a)
    (l : List α) :
    ∀ (st st' : HState), optFold g st l = some st' →
      ∀ a, st.heap.head? = some a → st'.heap.head? = some a := by
  induction l with
  | nil =>
    intro st st' h a ha
    obtain rfl := Option.some.inj h
    exact ha
  | cons x l ih =>
    intro st st' h a ha
    rw [optFold_cons] at h
    cases hgx : g st x with
    | none => rw [hgx] at h; cases h
    | some st1 =>
      rw [hgx, Option.some_bind] at h
      exact ih st1 st' h a (hg st x st1 hgx a ha)

theorem annotReservedH_head (st : HState) (an : Annot) (st' : HState) (a : Table)
    (h : annotReservedH st an = some st') (ha : st.heap.head? = some a) :
    st'.heap.head? = some a := by
  unfold annotReservedH at h
  cases hg : an.gene_name with
  | none =>
    cases hi : an.index_list with
    | none =>
      rw [hg, hi] at h
      dsimp only at h
      obtain rfl := Option.some.inj h
      exact ha
    | some is =>
      rw [hg, hi] at h
      dsimp only at h
      exact condAlloc_head _ _ st st' a h ha
  | some gs =>
    cases hi : an.index_list with
    | none =>
      rw [hg, hi] at h
      dsimp only at h
      exact condAlloc_head _ _ st st' a h ha
    | some is =>
      rw [hg, hi] at h
      dsimp only at h
      by_cases hc : gs ≠ [] ∧ is ≠ []
      · rw [if_pos hc] at h
        exact allocStep_head _ st st' a h ha
      · rw [if_neg hc, Option.bind_eq_some] at h
        obtain ⟨st1, h1, h⟩ := h
        have ha1 : st1.heap.head? = some a := condAlloc_head _ _ st st1 a h1 ha
        exact condAlloc_head _ _ st1 st' a h ha1

theorem annotStepH_head (st : HState) (an : Option Annot) (st' : HState) (a : Table)
    (h : annotStepH st an = some st') (ha : st.heap.head? = some a) :
    st'.heap.head? = some a := by
  cases an with
  | none =>
    obtain rfl := Option.some.inj h
    exact ha
  | some an =>
    unfold annotStepH at h
    dsimp only at h
    by_cases htr : an.truthy = true
    · rw [if_pos htr, Option.bind_eq_some] at h
      obtain ⟨st1, h1, h⟩ := h
      have ha1 := annotReservedH_head st an st1 a h1 ha
      exact optFold_head _
        (fun st x st' hx a ha => condAlloc_head _ _ st st' a hx ha)
        an.others st1 st' h a ha1
    · rw [if_neg htr] at h
      obtain rfl := Option.some.inj h
      exact ha

theorem hWrite_hAlloc_head (st : HState) (tb tb2 : Table) (a : Table)
    (ha : st.heap.head? = some a) :
    (hWrite (hAlloc st tb) tb2).heap.head? = some a := by
  cases hh : st.heap with
  | nil => rw [hh] at ha; cases ha
  | cons x xs =>
    rw [hh] at ha
    simp only [hWrite, hAlloc, hh]
    simp only [List.cons_append, List.length_cons, List.set_cons_succ, List.head?_cons]
    exact ha

theorem buildFinish_head (st2 : HState) (p : Params) (sr : HState × BuildResult)
    (a : Table) (h : buildFinish st2 p = some sr) (ha : st2.heap.head? = some a) :
    sr.1.heap.head? = some a := by
  unfold buildFinish at h
  dsimp only at h
  rw [Option.bind_eq_some] at h
  obtain ⟨z, hz, h⟩ := h
  rw [Option.map_eq_some'] at h
  obtain ⟨hov, hhov, hpair⟩ := h
  subst hpair
  exact head?_hAlloc _ _ a (hWrite_hAlloc_head st2 _ _ a ha)

/-- C6: however the build is invoked — any annotation, sample and file
filters — the caller's table at heap address 0 is unchanged when the build
returns: all filtering allocates derived frames and the one in-place write
targets the copy. -/
theorem c6_input_not_mutated (t : Table) (p : Params) :
    (buildH t p).elim True (fun sr => sr.1.heap.head? = some t) := by
  cases hb : buildH t p with
  | none => trivial
  | some sr =>
    simp only [Option.elim]
    unfold buildH at hb
    rw [Option.bind_eq_some] at hb
    obtain ⟨st0, h0, hb⟩ := hb
    rw [Option.bind_eq_some] at hb
    obtain ⟨st1, h1, hb⟩ := hb
    rw [Option.bind_eq_some] at hb
    obtain ⟨st2, h2, hb⟩ := hb
    have ha0 : st0.heap.head? = some t :=
      annotStepH_head ⟨[t], 0⟩ p.annot st0 t h0 rfl
    have ha1 : st1.heap.head? = some t :=
      optFold_head _ (fun st x st' hx a ha => allocStep_head _ st st' a hx ha)
        (listArg p.filter_sample) st0 st1 h1 t ha0
    have ha2 : st2.heap.head? = some t :=
      optFold_head _ (fun st x st' hx a ha => allocStep_head _ st st' a hx ha)
        (listArg p.filter_file) st1 st2 h2 t ha1
    exact buildFinish_head st2 p sr t hb ha2

end VariantMap
